import Mathlib

/-!
# Verilator test bench `tb/tb_tl_top_verilator.cpp`

A shallow embedding of `main` of `tb/tb_tl_top_verilator.cpp`.

The C++ program drives a Verilated model (`Vtb_tl_top_verilator`, generated
code that is not part of the repository sources) and a VCD trace object
(`VerilatedVcdC`, Verilator library).  The embedding threads an explicit
state through the statements of `main`:

* the global `main_time` (a `vluint64_t`, hence arithmetic modulo `2^64`),
* the two input ports `top->clk` and `top->rst_n`,
* the internal state of the model, of an arbitrary type `σ`,
* the flag read by `Verilated::gotFinish()`,
* the trace object, and
* a log of every operation `main` performs, in program order.

The model under test is a parameter (`Dut σ`): its constructor state, what
`eval()` does to its state for given inputs, whether that evaluation
executes `$finish`, and what `final()` does.
-/

namespace TbTlTop

/-- Operations performed by `main`, in the order in which they are logged. -/
inductive Event where
  /-- Line 23, `top->trace(tfp, depth)`. -/
  | traceReg (depth : Nat)
  /-- Line 24, `tfp->open("tb_tl_top_verilator.vcd")`. -/
  | openVcd
  /-- Line 27, `top->clk = v`. -/
  | writeClk (v : Bool)
  /-- Lines 28 and 38, `top->rst_n = v`. -/
  | writeRst (v : Bool)
  /-- Line 34, `top->clk = !top->clk`; `v` is the value written. -/
  | toggleClk (v : Bool)
  /-- Lines 29 and 42, `top->eval()`, with the input ports it sees. -/
  | eval (clk rst_n : Bool)
  /-- Line 45, `tfp->dump(t)`, with the input ports at the time of the dump. -/
  | dump (t : Nat) (clk rst_n : Bool)
  /-- Line 52, `top->final()`. -/
  | final
  /-- Line 55, `tfp->close()`. -/
  | close
  deriving DecidableEq, Repr

/-- The Verilated model `Vtb_tl_top_verilator` as seen by `main`: a black box
with an internal state of type `σ`.  `eval clk rst_n x` is one call of
`top->eval()` in internal state `x` with the given input ports; it returns the
new internal state and whether the evaluation executed `$finish`. -/
structure Dut (σ : Type) where
  /-- Internal state after `new Vtb_tl_top_verilator`. -/
  init : σ
  /-- One call of `top->eval()`. -/
  eval : Bool → Bool → σ → σ × Bool
  /-- The call `top->final()`, made once after the loop; the flag read by
  `Verilated::gotFinish()` is only consulted by the loop condition. -/
  final : σ → σ

/-- Modelled from the spec: the trace sink `VerilatedVcdC` (Verilator library,
not among the sources).  `open` may fail; `dump t` appends one record keyed by
`t`; the sink contains no records if `open` failed. -/
structure VerilatedVcdC where
  /-- Whether the sink is open. -/
  isOpen : Bool
  /-- Keys of the records written so far, oldest first. -/
  records : List Nat
  deriving DecidableEq, Repr

/-- The object after `new VerilatedVcdC`. -/
def VerilatedVcdC.new : VerilatedVcdC := ⟨false, []⟩

/-- The call `tfp->open(..)`; `ok` tells whether the file could be opened. -/
def VerilatedVcdC.openFile (v : VerilatedVcdC) (ok : Bool) : VerilatedVcdC :=
  { v with isOpen := ok }

/-- The call `tfp->dump(t)`. -/
def VerilatedVcdC.dump (v : VerilatedVcdC) (t : Nat) : VerilatedVcdC :=
  if v.isOpen then { v with records := v.records ++ [t] } else v

/-- The call `tfp->close()`. -/
def VerilatedVcdC.closeFile (v : VerilatedVcdC) : VerilatedVcdC :=
  { v with isOpen := false }

/-- Program state of `main`. -/
structure TbState (σ : Type) where
  /-- The global `vluint64_t main_time`. -/
  main_time : Nat
  /-- Input port `top->clk`. -/
  clk : Bool
  /-- Input port `top->rst_n` (active low reset). -/
  rst_n : Bool
  /-- Internal state of `*top`. -/
  top : σ
  /-- The value of `Verilated::gotFinish()`. -/
  gotFinish : Bool
  /-- The object `*tfp`. -/
  tfp : VerilatedVcdC
  /-- Operations performed so far, oldest first. -/
  log : List Event

/-- Number of values of a `vluint64_t`. -/
def vluint64Size : Nat := 18446744073709551616

/-- Lines 6 and 15-24: the global `main_time = 0`, both objects, trace
registration and the opening of the trace file, which succeeds iff `openOk`.
The ports of a fresh model are zero and `Verilated::gotFinish()` is false until
an evaluation executes `$finish`.  `Verilated::commandArgs` and
`Verilated::traceEverOn` do not touch this state. -/
def setup {σ : Type} (d : Dut σ) (openOk : Bool) : TbState σ :=
  { main_time := 0
    clk := false
    rst_n := false
    top := d.init
    gotFinish := false
    tfp := VerilatedVcdC.new.openFile openOk
    log := [Event.traceReg 99, Event.openVcd] }

/-- A call `top->eval()` (lines 29 and 42). -/
def evalStep {σ : Type} (d : Dut σ) (s : TbState σ) : TbState σ :=
  { s with
    top := (d.eval s.clk s.rst_n s.top).1
    gotFinish := s.gotFinish || (d.eval s.clk s.rst_n s.top).2
    log := s.log ++ [Event.eval s.clk s.rst_n] }

/-- Lines 27-29: `top->clk = 0; top->rst_n = 0; top->eval();`. -/
def initInputs {σ : Type} (d : Dut σ) (s : TbState σ) : TbState σ :=
  evalStep d
    { s with
      clk := false
      rst_n := false
      log := s.log ++ [Event.writeClk false, Event.writeRst false] }

/-- Line 34: `top->clk = !top->clk;`. -/
def toggleClock {σ : Type} (s : TbState σ) : TbState σ :=
  { s with clk := !s.clk, log := s.log ++ [Event.toggleClk (!s.clk)] }

/-- Lines 37-39: `if (main_time > 100) { top->rst_n = 1; }`. -/
def releaseReset {σ : Type} (s : TbState σ) : TbState σ :=
  if 100 < s.main_time then
    { s with rst_n := true, log := s.log ++ [Event.writeRst true] }
  else s

/-- Line 45: `tfp->dump(main_time);`. -/
def dumpStep {σ : Type} (s : TbState σ) : TbState σ :=
  { s with
    tfp := s.tfp.dump s.main_time
    log := s.log ++ [Event.dump s.main_time s.clk s.rst_n] }

/-- Line 48: `main_time++;` on a `vluint64_t`. -/
def incTime {σ : Type} (s : TbState σ) : TbState σ :=
  { s with main_time := (s.main_time + 1) % vluint64Size }

/-- Lines 33-48: the body of the `while` loop, one tick. -/
def tickBody {σ : Type} (d : Dut σ) (s : TbState σ) : TbState σ :=
  incTime (dumpStep (evalStep d (releaseReset (toggleClock s))))

/-- Line 32: the loop condition `!Verilated::gotFinish() && main_time < 50000`. -/
def loopCond {σ : Type} (s : TbState σ) : Bool :=
  !s.gotFinish && decide (s.main_time < 50000)

/-- Lines 32-49: the `while` loop.  It terminates because `main_time` grows
towards the bound 50000 in every iteration. -/
def runLoop {σ : Type} (d : Dut σ) (s : TbState σ) : TbState σ :=
  if _h : loopCond s = true then runLoop d (tickBody d s) else s
termination_by 50000 - s.main_time
decreasing_by
  have h : loopCond s = true := by assumption
  simp only [loopCond, Bool.and_eq_true, decide_eq_true_eq] at h
  simp only [tickBody, incTime, dumpStep, evalStep, releaseReset, toggleClock, vluint64Size]
  split <;> simp only [] <;> omega

/-- Line 52: `top->final();`. -/
def finalStep {σ : Type} (d : Dut σ) (s : TbState σ) : TbState σ :=
  { s with top := d.final s.top, log := s.log ++ [Event.final] }

/-- Line 55: `tfp->close();`. -/
def closeStep {σ : Type} (s : TbState σ) : TbState σ :=
  { s with tfp := s.tfp.closeFile, log := s.log ++ [Event.close] }

/-- State on entry to the `while` loop (after line 29). -/
def preLoop {σ : Type} (d : Dut σ) (openOk : Bool) : TbState σ :=
  initInputs d (setup d openOk)

/-- Result of `main`: the state when `main` returns and its return value. -/
structure MainResult (σ : Type) where
  /-- Program state at `return`. -/
  st : TbState σ
  /-- The value returned by `main`. -/
  exitCode : Int

/-- The function `main` (lines 13-62); `openOk` is the outcome of the attempt to
open the trace file.  The outcome of `tfp->open` is not tested by `main`, and
the only `return` is `return 0`.  The two `delete` statements (lines 58-59)
release memory and leave the modelled state unchanged. -/
def main {σ : Type} (d : Dut σ) (openOk : Bool) : MainResult σ :=
  { st := closeStep (finalStep d (runLoop d (preLoop d openOk)))
    exitCode := 0 }

/-! ## Vocabulary of the statements -/

/-- State after the initialisation and `k` executions of the loop body. -/
def stateAfter {σ : Type} (d : Dut σ) (openOk : Bool) : Nat → TbState σ
  | 0 => preLoop d openOk
  | k + 1 => tickBody d (stateAfter d openOk k)

/-- Value of `clk` after `t + 1` toggles starting from 0. -/
def clkAt (t : Nat) : Bool := decide ((t + 1) % 2 = 1)

/-- Value of `rst_n` prescribed for tick `t`: released iff `t > 100`. -/
def rstAt (t : Nat) : Bool := decide (100 < t)

/-- Operations of the tick entered with `main_time = t`. -/
def tickEvents (t : Nat) : List Event :=
  [Event.toggleClk (clkAt t)] ++ (if 100 < t then [Event.writeRst true] else []) ++
    [Event.eval (clkAt t) (rstAt t), Event.dump t (clkAt t) (rstAt t)]

/-- Operations of the ticks `0, 1, ..., n - 1`, in order. -/
def loopEvents : Nat → List Event
  | 0 => []
  | n + 1 => loopEvents n ++ tickEvents n

/-- Operations of lines 23-29, before the loop. -/
def preLoopEvents : List Event :=
  [Event.traceReg 99, Event.openVcd, Event.writeClk false, Event.writeRst false,
    Event.eval false false]

/-- Number of `top->eval()` calls in a log. -/
def evalCount : List Event → Nat
  | [] => 0
  | Event.eval _ _ :: l => evalCount l + 1
  | _ :: l => evalCount l

/-- Number of clock toggles (line 34) in a log. -/
def toggleCount : List Event → Nat
  | [] => 0
  | Event.toggleClk _ :: l => toggleCount l + 1
  | _ :: l => toggleCount l

/-- Keys passed to `tfp->dump`, in call order. -/
def dumpKeys : List Event → List Nat
  | [] => []
  | Event.dump t _ _ :: l => t :: dumpKeys l
  | _ :: l => dumpKeys l

/-- Values written to `top->rst_n`, in order. -/
def rstWrites : List Event → List Bool
  | [] => []
  | Event.writeRst v :: l => v :: rstWrites l
  | _ :: l => rstWrites l

/-- Number of positions at which a sequence of values changes. -/
def changes : List Bool → Nat
  | a :: b :: l => (if a = b then 0 else 1) + changes (b :: l)
  | _ => 0

/-- Whether an operation is a method call on the model or on the trace object. -/
def Event.isCall : Event → Bool
  | Event.traceReg _ => true
  | Event.openVcd => true
  | Event.eval _ _ => true
  | Event.dump _ _ _ => true
  | Event.final => true
  | Event.close => true
  | _ => false

/-- The method calls of a log, in order. -/
def calls (l : List Event) : List Event := l.filter Event.isCall

/-- State in which `top->eval()` is called (line 42) in the tick executed after
`t` earlier ticks: the clock has been toggled and the reset updated. -/
def atEval {σ : Type} (d : Dut σ) (openOk : Bool) (t : Nat) : TbState σ :=
  releaseReset (toggleClock (stateAfter d openOk t))

/-- State in which `tfp->dump(main_time)` is called (line 45) in that tick. -/
def atDump {σ : Type} (d : Dut σ) (openOk : Bool) (t : Nat) : TbState σ :=
  evalStep d (atEval d openOk t)

/-- Method calls of the ticks `0, 1, ..., n - 1`: per tick one evaluation
followed by the dump of that tick. -/
def loopCalls : Nat → List Event
  | 0 => []
  | n + 1 => loopCalls n ++
      [Event.eval (clkAt n) (rstAt n), Event.dump n (clkAt n) (rstAt n)]

/-- Recogniser of: per tick an evaluation followed by a dump, then `final`, then
`close`, and nothing else. -/
def ticksThenTeardown : List Event → Bool
  | [Event.final, Event.close] => true
  | Event.eval _ _ :: Event.dump _ _ _ :: rest => ticksThenTeardown rest
  | _ => false

/-- Recogniser of the call sequence: trace registration, open, then per tick an
evaluation followed by a dump, then `final`, then `close`. -/
def tickOnlyShape : List Event → Bool
  | Event.traceReg _ :: Event.openVcd :: rest => ticksThenTeardown rest
  | _ => false

/-- A model without internal state that never executes `$finish`. -/
def idleDut : Dut Unit :=
  { init := (), eval := fun _ _ _ => ((), false), final := fun _ => () }

/-- A model that counts its evaluations and executes `$finish` during
evaluation number `n` (the first call of `eval` is number 1). -/
def finishAtEval (n : Nat) : Dut Nat :=
  { init := 0, eval := fun _ _ x => (x + 1, decide (x + 1 = n)), final := fun x => x }

/-- The finish request first occurs during the evaluation of the tick entered
with `main_time = k`. -/
def FinishesInTick {σ : Type} (d : Dut σ) (openOk : Bool) (k : Nat) : Prop :=
  (∀ j, j ≤ k → (stateAfter d openOk j).gotFinish = false) ∧
    (stateAfter d openOk k).main_time = k ∧
    (tickBody d (stateAfter d openOk k)).gotFinish = true

/-- The finish request first occurs during the `n`-th call of `top->eval()`:
the flag is clear as long as fewer than `n` calls have been made and set once
`n` calls have been made. -/
def FinishesAtEval {σ : Type} (d : Dut σ) (openOk : Bool) (n : Nat) : Prop :=
  (∀ j, evalCount (stateAfter d openOk j).log < n →
      (stateAfter d openOk j).gotFinish = false) ∧
    (∃ j, evalCount (stateAfter d openOk j).log = n) ∧
    (∀ j, evalCount (stateAfter d openOk j).log = n →
      (stateAfter d openOk j).gotFinish = true)

/-! ## The loop body iterated -/

section Lemmas

variable {σ : Type} (d : Dut σ) (ok : Bool)

lemma tickBody_main_time (s : TbState σ) (h : s.main_time < 50000) :
    (tickBody d s).main_time = s.main_time + 1 := by
  simp only [tickBody, incTime, dumpStep, evalStep, releaseReset, toggleClock, vluint64Size]
  split <;> simp only [] <;> omega

lemma tickBody_gotFinish_mono (s : TbState σ) (h : s.gotFinish = true) :
    (tickBody d s).gotFinish = true := by
  simp only [tickBody, incTime, dumpStep, evalStep, releaseReset, toggleClock]
  split <;> simp [h]

lemma clk_step (k : Nat) : (!decide (k % 2 = 1)) = clkAt k := by
  unfold clkAt
  rcases Nat.mod_two_eq_zero_or_one k with h | h
  · have : (k + 1) % 2 = 1 := by omega
    simp [h, this]
  · have : (k + 1) % 2 = 0 := by omega
    simp [h, this]

lemma tickBody_log (s : TbState σ) (k : Nat) (hm : s.main_time = k)
    (hc : s.clk = decide (k % 2 = 1)) (hr : s.rst_n = decide (101 < k)) :
    (tickBody d s).log = s.log ++ tickEvents k ∧ (tickBody d s).clk = clkAt k ∧
      (tickBody d s).rst_n = rstAt k := by
  simp only [tickBody, incTime, dumpStep, evalStep, releaseReset, toggleClock, tickEvents,
    hm, hc, hr, clk_step, rstAt]
  by_cases h : 100 < k
  · simp [h]
  · have h2 : ¬ 101 < k := by omega
    simp [h, h2]

lemma preLoop_fields :
    (preLoop d ok).main_time = 0 ∧ (preLoop d ok).clk = false ∧
      (preLoop d ok).rst_n = false ∧ (preLoop d ok).log = preLoopEvents ∧
      (preLoop d ok).tfp = ⟨ok, []⟩ := by
  simp [preLoop, initInputs, setup, evalStep, preLoopEvents, VerilatedVcdC.new,
    VerilatedVcdC.openFile]

lemma tickBody_tfp (s : TbState σ) :
    (tickBody d s).tfp = s.tfp.dump s.main_time := by
  simp only [tickBody, incTime, dumpStep, evalStep, releaseReset, toggleClock]
  split <;> rfl

/-- Closed form of the ports, the clock, the log and the sink after `k` ticks. -/
lemma stateAfter_fields (k : Nat) (hk : k ≤ 50000) :
    (stateAfter d ok k).main_time = k ∧
      (stateAfter d ok k).clk = decide (k % 2 = 1) ∧
      (stateAfter d ok k).rst_n = decide (101 < k) ∧
      (stateAfter d ok k).log = preLoopEvents ++ loopEvents k ∧
      (stateAfter d ok k).tfp = ⟨ok, if ok = true then List.range k else []⟩ := by
  induction k with
  | zero =>
    obtain ⟨h1, h2, h3, h4, h5⟩ := preLoop_fields d ok
    simp [stateAfter, h1, h2, h3, h4, h5, loopEvents]
  | succ k ih =>
    obtain ⟨h1, h2, h3, h4, h5⟩ := ih (by omega)
    obtain ⟨l1, l2, l3⟩ := tickBody_log d (stateAfter d ok k) k h1 h2 h3
    have m := tickBody_main_time d (stateAfter d ok k) (by omega)
    have t := tickBody_tfp d (stateAfter d ok k)
    refine ⟨?_, ?_, ?_, ?_, ?_⟩
    · simp [stateAfter, m, h1]
    · simp [stateAfter, l2, clkAt]
    · simp only [stateAfter, l3, rstAt]
      by_cases h : 100 < k
      · have : 101 < k + 1 := by omega
        simp [h, this]
      · have : ¬ 101 < k + 1 := by omega
        simp [h, this]
    · simp [stateAfter, l1, h4, loopEvents, List.append_assoc]
    · simp only [stateAfter, t, h5, h1, VerilatedVcdC.dump]
      cases ok <;> simp [List.range_succ]

lemma stateAfter_main_time (k : Nat) (hk : k ≤ 50000) :
    (stateAfter d ok k).main_time = k :=
  (stateAfter_fields d ok k hk).1

lemma stateAfter_log (k : Nat) (hk : k ≤ 50000) :
    (stateAfter d ok k).log = preLoopEvents ++ loopEvents k :=
  (stateAfter_fields d ok k hk).2.2.2.1

lemma stateAfter_gotFinish_mono (j k : Nat) (hjk : j ≤ k)
    (h : (stateAfter d ok j).gotFinish = true) : (stateAfter d ok k).gotFinish = true := by
  induction k with
  | zero =>
    have : j = 0 := by omega
    subst this
    exact h
  | succ k ih =>
    rcases Nat.lt_or_ge j (k + 1) with hlt | hge
    · exact tickBody_gotFinish_mono d _ (ih (by omega))
    · have : j = k + 1 := by omega
      subst this
      exact h

/-! ## The loop -/

lemma runLoop_stop (s : TbState σ) (h : loopCond s = false) : runLoop d s = s := by
  rw [runLoop]
  simp [h]

lemma runLoop_step (s : TbState σ) (h : loopCond s = true) :
    runLoop d s = runLoop d (tickBody d s) := by
  rw [runLoop]
  simp [h]

/-- A loop whose condition holds at the states `j, ..., n - 1` and fails at state
`n` stops in state `n`. -/
lemma runLoop_stateAfter (n : Nat) :
    ∀ m j, j + m = n → (∀ i, j ≤ i → i < n → loopCond (stateAfter d ok i) = true) →
      loopCond (stateAfter d ok n) = false →
      runLoop d (stateAfter d ok j) = stateAfter d ok n := by
  intro m
  induction m with
  | zero =>
    intro j hj _ hn
    have : j = n := by omega
    subst this
    exact runLoop_stop d _ hn
  | succ m ih =>
    intro j hj hc hn
    rw [runLoop_step d _ (hc j (Nat.le_refl j) (by omega))]
    exact ih (j + 1) (by omega) (fun i h1 h2 => hc i (by omega) h2) hn

/-- Number of ticks after which the loop stops: the least `n` at which the loop
condition fails. -/
lemma exists_stop :
    ∃ n, n ≤ 50000 ∧ (∀ i, i < n → loopCond (stateAfter d ok i) = true) ∧
      loopCond (stateAfter d ok n) = false := by
  have hex : ∃ n, loopCond (stateAfter d ok n) = false := by
    refine ⟨50000, ?_⟩
    simp [loopCond, stateAfter_main_time d ok 50000 (Nat.le_refl _)]
  refine ⟨Nat.find hex, ?_, ?_, Nat.find_spec hex⟩
  · apply Nat.find_min'
    simp [loopCond, stateAfter_main_time d ok 50000 (Nat.le_refl _)]
  · intro i hi
    have := Nat.find_min hex hi
    simpa using this

lemma runLoop_eq (n : Nat) (hc : ∀ i, i < n → loopCond (stateAfter d ok i) = true)
    (hn : loopCond (stateAfter d ok n) = false) :
    runLoop d (preLoop d ok) = stateAfter d ok n :=
  runLoop_stateAfter d ok n n 0 (by omega) (fun i _ h => hc i h) hn

lemma stop_unique (n n2 : Nat) (hc : ∀ i, i < n → loopCond (stateAfter d ok i) = true)
    (hn : loopCond (stateAfter d ok n) = false)
    (hc2 : ∀ i, i < n2 → loopCond (stateAfter d ok i) = true)
    (hn2 : loopCond (stateAfter d ok n2) = false) : n = n2 := by
  rcases Nat.lt_trichotomy n n2 with h | h | h
  · rw [hc2 n h] at hn
    cases hn
  · exact h
  · rw [hc n2 h] at hn2
    cases hn2

/-- The run of `main`: some number `n ≤ 50000` of ticks is executed, the flag
`gotFinish` is clear before each of them, and the loop is left because the flag
is set or `n = 50000`. -/
lemma main_run :
    ∃ n, n ≤ 50000 ∧ (∀ i, i < n → (stateAfter d ok i).gotFinish = false) ∧
      ((stateAfter d ok n).gotFinish = true ∨ n = 50000) ∧
      runLoop d (preLoop d ok) = stateAfter d ok n ∧
      (main d ok).st = closeStep (finalStep d (stateAfter d ok n)) := by
  obtain ⟨n, hn, hc, hs⟩ := exists_stop d ok
  refine ⟨n, hn, ?_, ?_, runLoop_eq d ok n hc hs, ?_⟩
  · intro i hi
    have := hc i hi
    simp only [loopCond, Bool.and_eq_true, Bool.not_eq_true', decide_eq_true_eq] at this
    exact this.1
  · have hm := stateAfter_main_time d ok n hn
    simp only [loopCond, hm, Bool.and_eq_false_imp, Bool.not_eq_true', decide_eq_false_iff_not,
      ] at hs
    by_cases hg : (stateAfter d ok n).gotFinish = true
    · exact Or.inl hg
    · right
      have := hs (by simpa using hg)
      omega
  · simp [main, runLoop_eq d ok n hc hs]

lemma main_of_stop (n : Nat) (hn : n ≤ 50000)
    (hc : ∀ i, i < n → (stateAfter d ok i).gotFinish = false)
    (hs : (stateAfter d ok n).gotFinish = true ∨ n = 50000) :
    runLoop d (preLoop d ok) = stateAfter d ok n ∧
      (main d ok).st = closeStep (finalStep d (stateAfter d ok n)) := by
  have h1 : ∀ i, i < n → loopCond (stateAfter d ok i) = true := by
    intro i hi
    have hm := stateAfter_main_time d ok i (by omega)
    simp only [loopCond, hc i hi, hm, Bool.not_false, Bool.true_and, decide_eq_true_eq]
    omega
  have h2 : loopCond (stateAfter d ok n) = false := by
    have hm := stateAfter_main_time d ok n hn
    rcases hs with hs | hs
    · simp [loopCond, hs]
    · subst hs
      simp [loopCond, hm]
  have h3 := runLoop_eq d ok n h1 h2
  exact ⟨h3, by simp [main, h3]⟩

lemma final_fields (n : Nat) (hn : n ≤ 50000)
    (hm : (main d ok).st = closeStep (finalStep d (stateAfter d ok n))) :
    (main d ok).st.main_time = n ∧
      (main d ok).st.log = preLoopEvents ++ loopEvents n ++ [Event.final, Event.close] ∧
      (main d ok).st.gotFinish = (stateAfter d ok n).gotFinish ∧
      (main d ok).st.clk = decide (n % 2 = 1) ∧
      (main d ok).st.tfp.records = (if ok = true then List.range n else []) := by
  obtain ⟨h1, h2, _, h4, h5⟩ := stateAfter_fields d ok n hn
  rw [hm]
  simp [closeStep, finalStep, h1, h2, h4, h5, VerilatedVcdC.closeFile]

/-- The final state of `main` in terms of its final `main_time`. -/
lemma main_summary :
    (main d ok).st.main_time ≤ 50000 ∧
      runLoop d (preLoop d ok) = stateAfter d ok (main d ok).st.main_time ∧
      (main d ok).st.log =
        preLoopEvents ++ loopEvents (main d ok).st.main_time ++ [Event.final, Event.close] ∧
      (main d ok).st.clk = decide ((main d ok).st.main_time % 2 = 1) ∧
      (main d ok).st.tfp.records =
        (if ok = true then List.range (main d ok).st.main_time else []) := by
  obtain ⟨n, hn, _, _, hr, hm⟩ := main_run d ok
  obtain ⟨f1, f2, _, f4, f5⟩ := final_fields d ok n hn hm
  rw [f1]
  exact ⟨hn, hr, f2, f4, f5⟩

end Lemmas

/-! ## Counting in logs -/

lemma evalCount_append (l m : List Event) :
    evalCount (l ++ m) = evalCount l + evalCount m := by
  induction l with
  | nil => simp [evalCount]
  | cons e l ih => cases e <;> simp [evalCount, ih, Nat.add_right_comm]

lemma toggleCount_append (l m : List Event) :
    toggleCount (l ++ m) = toggleCount l + toggleCount m := by
  induction l with
  | nil => simp [toggleCount]
  | cons e l ih => cases e <;> simp [toggleCount, ih, Nat.add_right_comm]

lemma dumpKeys_append (l m : List Event) :
    dumpKeys (l ++ m) = dumpKeys l ++ dumpKeys m := by
  induction l with
  | nil => simp [dumpKeys]
  | cons e l ih => cases e <;> simp [dumpKeys, ih]

lemma rstWrites_append (l m : List Event) :
    rstWrites (l ++ m) = rstWrites l ++ rstWrites m := by
  induction l with
  | nil => simp [rstWrites]
  | cons e l ih => cases e <;> simp [rstWrites, ih]

lemma evalCount_tickEvents (t : Nat) : evalCount (tickEvents t) = 1 := by
  unfold tickEvents
  split <;> simp [evalCount]

lemma toggleCount_tickEvents (t : Nat) : toggleCount (tickEvents t) = 1 := by
  unfold tickEvents
  split <;> simp [toggleCount]

lemma dumpKeys_tickEvents (t : Nat) : dumpKeys (tickEvents t) = [t] := by
  unfold tickEvents
  split <;> simp [dumpKeys]

lemma rstWrites_tickEvents (t : Nat) :
    rstWrites (tickEvents t) = if 100 < t then [true] else [] := by
  unfold tickEvents
  split <;> simp [rstWrites]

lemma evalCount_loopEvents (n : Nat) : evalCount (loopEvents n) = n := by
  induction n with
  | zero => simp [loopEvents, evalCount]
  | succ n ih => simp [loopEvents, evalCount_append, evalCount_tickEvents, ih]

lemma toggleCount_loopEvents (n : Nat) : toggleCount (loopEvents n) = n := by
  induction n with
  | zero => simp [loopEvents, toggleCount]
  | succ n ih => simp [loopEvents, toggleCount_append, toggleCount_tickEvents, ih]

lemma dumpKeys_loopEvents (n : Nat) : dumpKeys (loopEvents n) = List.range n := by
  induction n with
  | zero => simp [loopEvents, dumpKeys]
  | succ n ih => simp [loopEvents, dumpKeys_append, dumpKeys_tickEvents, ih, List.range_succ]

lemma rstWrites_loopEvents (n : Nat) :
    rstWrites (loopEvents n) = List.replicate (n - 101) true := by
  induction n with
  | zero => simp [loopEvents, rstWrites]
  | succ n ih =>
    simp only [loopEvents, rstWrites_append, rstWrites_tickEvents, ih]
    by_cases h : 100 < n
    · have : n + 1 - 101 = (n - 101) + 1 := by omega
      simp [h, this, List.replicate_succ']
    · have : n + 1 - 101 = 0 := by omega
      have h0 : n - 101 = 0 := by omega
      simp [h, this, h0]

lemma changes_replicate (b : Bool) (n : Nat) : changes (List.replicate n b) = 0 := by
  induction n with
  | zero => simp [changes]
  | succ n ih =>
    cases n with
    | zero => simp [changes]
    | succ n =>
      simp only [List.replicate_succ] at ih ⊢
      simp [changes, ih]

lemma mem_tickEvents_dump (t k : Nat) (c r : Bool) :
    Event.dump k c r ∈ tickEvents t ↔ k = t ∧ c = clkAt t ∧ r = rstAt t := by
  unfold tickEvents
  split <;> simp

lemma mem_loopEvents_dump (n k : Nat) (c r : Bool) :
    Event.dump k c r ∈ loopEvents n ↔ k < n ∧ c = clkAt k ∧ r = rstAt k := by
  induction n with
  | zero => simp [loopEvents]
  | succ n ih =>
    simp only [loopEvents, List.mem_append, ih, mem_tickEvents_dump]
    constructor
    · rintro (⟨h1, h2, h3⟩ | ⟨h1, h2, h3⟩)
      · exact ⟨by omega, h2, h3⟩
      · subst h1
        exact ⟨by omega, h2, h3⟩
    · rintro ⟨h1, h2, h3⟩
      rcases Nat.lt_or_ge k n with h | h
      · exact Or.inl ⟨h, h2, h3⟩
      · have : k = n := by omega
        subst this
        exact Or.inr ⟨rfl, h2, h3⟩

lemma mem_log_dump (n k : Nat) (c r : Bool) :
    Event.dump k c r ∈ preLoopEvents ++ loopEvents n ++ [Event.final, Event.close] ↔
      k < n ∧ c = clkAt k ∧ r = rstAt k := by
  simp [preLoopEvents, mem_loopEvents_dump]

/-! ## Evaluations and the finish flag -/

lemma tickBody_evalCount {σ : Type} (d : Dut σ) (s : TbState σ) :
    evalCount (tickBody d s).log = evalCount s.log + 1 := by
  simp only [tickBody, incTime, dumpStep, evalStep, releaseReset, toggleClock]
  split <;> simp [evalCount_append, evalCount]

lemma evalCount_stateAfter {σ : Type} (d : Dut σ) (ok : Bool) (k : Nat) :
    evalCount (stateAfter d ok k).log = k + 1 := by
  induction k with
  | zero => simp [stateAfter, (preLoop_fields d ok).2.2.2.1, preLoopEvents, evalCount]
  | succ k ih => simp [stateAfter, tickBody_evalCount, ih]

lemma tickBody_top {σ : Type} (d : Dut σ) (s : TbState σ) :
    ∃ c r, (tickBody d s).top = (d.eval c r s.top).1 ∧
      (tickBody d s).gotFinish = (s.gotFinish || (d.eval c r s.top).2) := by
  simp only [tickBody, incTime, dumpStep, evalStep, releaseReset, toggleClock]
  split
  · exact ⟨_, _, rfl, rfl⟩
  · exact ⟨_, _, rfl, rfl⟩

lemma preLoop_top {σ : Type} (d : Dut σ) (ok : Bool) :
    (preLoop d ok).top = (d.eval false false d.init).1 ∧
      (preLoop d ok).gotFinish = (d.eval false false d.init).2 := by
  simp [preLoop, initInputs, setup, evalStep]

/-- A model none of whose evaluations executes `$finish` leaves the flag clear. -/
lemma gotFinish_of_quiet {σ : Type} (d : Dut σ) (ok : Bool)
    (h : ∀ c r x, (d.eval c r x).2 = false) (k : Nat) :
    (stateAfter d ok k).gotFinish = false := by
  induction k with
  | zero => simp [stateAfter, (preLoop_top d ok).2, h]
  | succ k ih =>
    obtain ⟨c, r, _, h2⟩ := tickBody_top d (stateAfter d ok k)
    simp [stateAfter, h2, ih, h]

lemma idleDut_quiet (ok : Bool) (k : Nat) : (stateAfter idleDut ok k).gotFinish = false :=
  gotFinish_of_quiet idleDut ok (fun _ _ _ => rfl) k

lemma finishAtEval_eval (n : Nat) (c r : Bool) (x : Nat) :
    (finishAtEval n).eval c r x = (x + 1, decide (x + 1 = n)) := rfl

lemma finishAtEval_init (n : Nat) : (finishAtEval n).init = 0 := rfl

/-- The counting model after `j` ticks: `j + 1` evaluations have been made. -/
lemma finishAtEval_state (n : Nat) (ok : Bool) (j : Nat) :
    (stateAfter (finishAtEval n) ok j).top = j + 1 ∧
      (stateAfter (finishAtEval n) ok j).gotFinish = decide (1 ≤ n ∧ n ≤ j + 1) := by
  induction j with
  | zero =>
    obtain ⟨h1, h2⟩ := preLoop_top (finishAtEval n) ok
    simp only [stateAfter]
    rw [h1, h2, finishAtEval_eval, finishAtEval_init]
    refine ⟨rfl, ?_⟩
    simp only [decide_eq_decide]
    omega
  | succ j ih =>
    obtain ⟨c, r, h1, h2⟩ := tickBody_top (finishAtEval n) (stateAfter (finishAtEval n) ok j)
    obtain ⟨i1, i2⟩ := ih
    simp only [stateAfter]
    rw [h1, h2, finishAtEval_eval, i1, i2]
    refine ⟨rfl, ?_⟩
    by_cases hn : 1 ≤ n ∧ n ≤ j + 1
    · have : 1 ≤ n ∧ n ≤ j + 1 + 1 := ⟨hn.1, by omega⟩
      simp [hn, this]
    · by_cases hn2 : j + 1 + 1 = n
      · have : 1 ≤ n ∧ n ≤ j + 1 + 1 := by omega
        simp [hn, hn2, this]
      · have : ¬ (1 ≤ n ∧ n ≤ j + 1 + 1) := by omega
        simp [hn, hn2, this]

lemma finishAtEval_inTick (n k : Nat) (ok : Bool) (hn : n = k + 2) (hk : k ≤ 50000) :
    FinishesInTick (finishAtEval n) ok k := by
  refine ⟨?_, stateAfter_main_time _ ok k hk, ?_⟩
  · intro j hj
    rw [(finishAtEval_state n ok j).2]
    simp only [decide_eq_false_iff_not]
    omega
  · have := (finishAtEval_state n ok (k + 1)).2
    simp only [stateAfter] at this
    rw [this]
    simp only [decide_eq_true_eq]
    omega

lemma finishAtEval_atEval (n : Nat) (ok : Bool) (hn : 1 ≤ n) :
    FinishesAtEval (finishAtEval n) ok n := by
  refine ⟨?_, ⟨n - 1, ?_⟩, ?_⟩
  · intro j hj
    rw [evalCount_stateAfter] at hj
    rw [(finishAtEval_state n ok j).2]
    simp only [decide_eq_false_iff_not]
    omega
  · rw [evalCount_stateAfter]
    omega
  · intro j hj
    rw [evalCount_stateAfter] at hj
    rw [(finishAtEval_state n ok j).2]
    simp only [decide_eq_true_eq]
    omega

/-- The run of the counting model: `n - 1` ticks. -/
lemma main_finishAtEval (n : Nat) (ok : Bool) (h1 : 1 ≤ n) (h2 : n ≤ 50001) :
    (main (finishAtEval n) ok).st =
      closeStep (finalStep (finishAtEval n) (stateAfter (finishAtEval n) ok (n - 1))) := by
  refine (main_of_stop (finishAtEval n) ok (n - 1) (by omega) ?_ (Or.inl ?_)).2
  · intro i hi
    rw [(finishAtEval_state n ok i).2]
    simp only [decide_eq_false_iff_not]
    omega
  · rw [(finishAtEval_state n ok (n - 1)).2]
    simp only [decide_eq_true_eq]
    omega

lemma main_idleDut (ok : Bool) :
    (main idleDut ok).st = closeStep (finalStep idleDut (stateAfter idleDut ok 50000)) :=
  (main_of_stop idleDut ok 50000 (Nat.le_refl _) (fun i _ => idleDut_quiet ok i)
    (Or.inr rfl)).2

/-! ## States inside a tick -/

lemma atEval_fields {σ : Type} (d : Dut σ) (ok : Bool) (t : Nat) (ht : t ≤ 50000) :
    (atEval d ok t).main_time = t ∧ (atEval d ok t).clk = clkAt t ∧
      (atEval d ok t).rst_n = rstAt t ∧
      toggleCount (atEval d ok t).log = t + 1 ∧
      (atDump d ok t).main_time = t ∧ (atDump d ok t).clk = clkAt t ∧
      (atDump d ok t).rst_n = rstAt t ∧
      tickBody d (stateAfter d ok t) = incTime (dumpStep (atDump d ok t)) := by
  obtain ⟨h1, h2, h3, h4, _⟩ := stateAfter_fields d ok t ht
  have hp : toggleCount preLoopEvents = 0 := by simp [preLoopEvents, toggleCount]
  simp only [atDump, atEval, evalStep, releaseReset, toggleClock, h1, h2, h3, h4, clk_step,
    rstAt, tickBody]
  by_cases h : 100 < t
  · simp [h, toggleCount_append, toggleCount_loopEvents, hp, toggleCount]
  · have h2 : ¬ 101 < t := by omega
    simp [h, h2, toggleCount_append, toggleCount_loopEvents, hp, toggleCount]

/-! ## Independence of the outcome of `open` -/

lemma tickBody_congr {σ : Type} (d : Dut σ) (s u : TbState σ)
    (h : s.main_time = u.main_time ∧ s.clk = u.clk ∧ s.rst_n = u.rst_n ∧ s.top = u.top ∧
      s.gotFinish = u.gotFinish ∧ s.log = u.log) :
    (tickBody d s).main_time = (tickBody d u).main_time ∧
      (tickBody d s).clk = (tickBody d u).clk ∧
      (tickBody d s).rst_n = (tickBody d u).rst_n ∧
      (tickBody d s).top = (tickBody d u).top ∧
      (tickBody d s).gotFinish = (tickBody d u).gotFinish ∧
      (tickBody d s).log = (tickBody d u).log := by
  obtain ⟨h1, h2, h3, h4, h5, h6⟩ := h
  simp only [tickBody, incTime, dumpStep, evalStep, releaseReset, toggleClock, h1, h2, h3, h4,
    h5, h6]
  split <;> simp

lemma stateAfter_congr {σ : Type} (d : Dut σ) (k : Nat) :
    (stateAfter d false k).main_time = (stateAfter d true k).main_time ∧
      (stateAfter d false k).clk = (stateAfter d true k).clk ∧
      (stateAfter d false k).rst_n = (stateAfter d true k).rst_n ∧
      (stateAfter d false k).top = (stateAfter d true k).top ∧
      (stateAfter d false k).gotFinish = (stateAfter d true k).gotFinish ∧
      (stateAfter d false k).log = (stateAfter d true k).log := by
  induction k with
  | zero => simp [stateAfter, preLoop, initInputs, setup, evalStep]
  | succ k ih => exact tickBody_congr d _ _ ih

/-- The number of ticks and the operations performed do not depend on whether
the trace file could be opened. -/
lemma main_open_indep {σ : Type} (d : Dut σ) :
    (main d false).st.main_time = (main d true).st.main_time ∧
      (main d false).st.log = (main d true).st.log := by
  obtain ⟨n, hn, hc, hs⟩ := exists_stop d false
  obtain ⟨m, hm, hc2, hs2⟩ := exists_stop d true
  have hl : ∀ i, loopCond (stateAfter d false i) = loopCond (stateAfter d true i) := by
    intro i
    obtain ⟨e1, _, _, _, e5, _⟩ := stateAfter_congr d i
    simp [loopCond, e1, e5]
  have hnm : n = m :=
    stop_unique d true n m (fun i hi => by rw [← hl]; exact hc i hi) (by rw [← hl]; exact hs)
      hc2 hs2
  subst hnm
  have r1 : (main d false).st = closeStep (finalStep d (stateAfter d false n)) := by
    simp [main, runLoop_eq d false n hc hs]
  have r2 : (main d true).st = closeStep (finalStep d (stateAfter d true n)) := by
    simp [main, runLoop_eq d true n hc2 hs2]
  obtain ⟨f1, f2, _⟩ := final_fields d false n hn r1
  obtain ⟨g1, g2, _⟩ := final_fields d true n hn r2
  exact ⟨by rw [f1, g1], by rw [f2, g2]⟩

/-! ## Method calls -/

lemma calls_tickEvents (t : Nat) :
    calls (tickEvents t) =
      [Event.eval (clkAt t) (rstAt t), Event.dump t (clkAt t) (rstAt t)] := by
  unfold tickEvents calls
  split <;> simp [List.filter, Event.isCall]

lemma calls_loopEvents (n : Nat) : calls (loopEvents n) = loopCalls n := by
  induction n with
  | zero => simp [loopEvents, loopCalls, calls]
  | succ n ih =>
    have := calls_tickEvents n
    simp only [calls] at ih this ⊢
    simp [loopEvents, loopCalls, List.filter_append, ih, this]

lemma calls_log (n : Nat) :
    calls (preLoopEvents ++ loopEvents n ++ [Event.final, Event.close]) =
      [Event.traceReg 99, Event.openVcd, Event.eval false false] ++ loopCalls n ++
        [Event.final, Event.close] := by
  have := calls_loopEvents n
  simp only [calls] at this ⊢
  simp [List.filter_append, this, preLoopEvents, List.filter, Event.isCall]

lemma evalCount_log (n : Nat) :
    evalCount (preLoopEvents ++ loopEvents n ++ [Event.final, Event.close]) = n + 1 := by
  simp [evalCount_append, evalCount_loopEvents, preLoopEvents, evalCount, Nat.add_comm]

lemma toggleCount_log (n : Nat) :
    toggleCount (preLoopEvents ++ loopEvents n ++ [Event.final, Event.close]) = n := by
  simp [toggleCount_append, toggleCount_loopEvents, preLoopEvents, toggleCount]

lemma dumpKeys_log (n : Nat) :
    dumpKeys (preLoopEvents ++ loopEvents n ++ [Event.final, Event.close]) = List.range n := by
  simp [dumpKeys_append, dumpKeys_loopEvents, preLoopEvents, dumpKeys]

lemma rstWrites_log (n : Nat) :
    rstWrites (preLoopEvents ++ loopEvents n ++ [Event.final, Event.close]) =
      false :: List.replicate (n - 101) true := by
  simp [rstWrites_append, rstWrites_loopEvents, preLoopEvents, rstWrites]

lemma changes_false_replicate (m : Nat) :
    changes (false :: List.replicate m true) = if 0 < m then 1 else 0 := by
  cases m with
  | zero => simp [changes]
  | succ m =>
    have := changes_replicate true (m + 1)
    simp only [List.replicate_succ] at this ⊢
    simp [changes, this]

lemma ticksThenTeardown_loopCalls (n : Nat) :
    ∀ l, ticksThenTeardown (loopCalls n ++ l) = ticksThenTeardown l := by
  induction n with
  | zero => simp [loopCalls]
  | succ n ih =>
    intro l
    simp only [loopCalls, List.append_assoc]
    rw [ih]
    simp [ticksThenTeardown]

/-! ## The claims -/

/-- C1: for a model that never requests finish (the flag `gotFinish` is clear
after the initial evaluation and after each of the first 50000 ticks), the loop
of `main` executes exactly 50000 ticks: the final `main_time` is 50000, the
clock has been toggled 50000 times, `tfp->dump` has been called 50000 times
(writing 50000 records when the file was opened), and `gotFinish` is still
false when the loop is left and when `main` returns, so the run ends because
the tick bound was reached. -/
theorem never_finish_runs_to_bound {σ : Type} (d : Dut σ) (ok : Bool)
    (h : ∀ k, k ≤ 50000 → (stateAfter d ok k).gotFinish = false) :
    runLoop d (preLoop d ok) = stateAfter d ok 50000 ∧
      (main d ok).st.main_time = 50000 ∧
      toggleCount (main d ok).st.log = 50000 ∧
      (dumpKeys (main d ok).st.log).length = 50000 ∧
      (ok = true → (main d ok).st.tfp.records.length = 50000) ∧
      (runLoop d (preLoop d ok)).gotFinish = false ∧
      (main d ok).st.gotFinish = false := by
  obtain ⟨hr, hm⟩ := main_of_stop d ok 50000 (Nat.le_refl _) (fun i hi => h i (by omega))
    (Or.inr rfl)
  obtain ⟨f1, f2, f3, _, f5⟩ := final_fields d ok 50000 (Nat.le_refl _) hm
  refine ⟨hr, f1, ?_, ?_, ?_, ?_, ?_⟩
  · rw [f2, toggleCount_log]
  · rw [f2, dumpKeys_log, List.length_range]
  · intro hok
    rw [f5]
    simp [hok]
  · rw [hr]
    exact h 50000 (Nat.le_refl _)
  · rw [f3]
    exact h 50000 (Nat.le_refl _)

/-- Witness of C1: the idle model, trace file opened. -/
theorem never_finish_runs_to_bound_witness :
    (∀ k, k ≤ 50000 → (stateAfter idleDut true k).gotFinish = false) ∧
      (runLoop idleDut (preLoop idleDut true) = stateAfter idleDut true 50000 ∧
        (main idleDut true).st.main_time = 50000 ∧
        toggleCount (main idleDut true).st.log = 50000 ∧
        (dumpKeys (main idleDut true).st.log).length = 50000 ∧
        (true = true → (main idleDut true).st.tfp.records.length = 50000) ∧
        (runLoop idleDut (preLoop idleDut true)).gotFinish = false ∧
        (main idleDut true).st.gotFinish = false) :=
  ⟨fun k _ => idleDut_quiet true k,
    never_finish_runs_to_bound idleDut true (fun k _ => idleDut_quiet true k)⟩

/-- C2, as amended: for `k < 50000` and a model whose finish request first
occurs during the evaluation of the tick entered with `main_time = k`, the loop
stops after that tick with final `main_time = k + 1` and `gotFinish` true;
`tfp->dump` has been called exactly `k + 1` times, with the keys `0, ..., k` in
order, and these are the records of the sink when the file was opened. -/
theorem finish_in_tick_exit {σ : Type} (d : Dut σ) (ok : Bool) (k : Nat) (hk : k < 50000)
    (h : FinishesInTick d ok k) :
    runLoop d (preLoop d ok) = stateAfter d ok (k + 1) ∧
      (main d ok).st.main_time = k + 1 ∧
      (main d ok).st.gotFinish = true ∧
      dumpKeys (main d ok).st.log = List.range (k + 1) ∧
      (ok = true → (main d ok).st.tfp.records = List.range (k + 1)) := by
  obtain ⟨h1, _, h3⟩ := h
  obtain ⟨hr, hm⟩ := main_of_stop d ok (k + 1) (by omega) (fun i hi => h1 i (by omega))
    (Or.inl h3)
  obtain ⟨f1, f2, f3, _, f5⟩ := final_fields d ok (k + 1) (by omega) hm
  refine ⟨hr, f1, ?_, ?_, ?_⟩
  · rw [f3]
    exact h3
  · rw [f2, dumpKeys_log]
  · intro hok
    rw [f5]
    simp [hok]

/-- Witness of C2 as amended: the model finishing during its fifth evaluation,
that is in the tick entered with `main_time = 3`. -/
theorem finish_in_tick_exit_witness :
    3 < 50000 ∧ FinishesInTick (finishAtEval 5) true 3 ∧
      (runLoop (finishAtEval 5) (preLoop (finishAtEval 5) true) =
          stateAfter (finishAtEval 5) true (3 + 1) ∧
        (main (finishAtEval 5) true).st.main_time = 3 + 1 ∧
        (main (finishAtEval 5) true).st.gotFinish = true ∧
        dumpKeys (main (finishAtEval 5) true).st.log = List.range (3 + 1) ∧
        (true = true → (main (finishAtEval 5) true).st.tfp.records = List.range (3 + 1))) :=
  ⟨by decide, finishAtEval_inTick 5 3 true rfl (by decide),
    finish_in_tick_exit (finishAtEval 5) true 3 (by decide)
      (finishAtEval_inTick 5 3 true rfl (by decide))⟩

/-- Counterexample to C2 as stated: the model that requests finish during the
evaluation of tick 0 (its second evaluation) leaves `main` with
`main_time = 1`, not 0. -/
theorem finish_in_tick_time_counterexample :
    0 < 50000 ∧ FinishesInTick (finishAtEval 2) true 0 ∧
      (main (finishAtEval 2) true).st.main_time = 1 ∧
      (main (finishAtEval 2) true).st.main_time ≠ 0 := by
  have hm := main_finishAtEval 2 true (by decide) (by decide)
  have f1 := (final_fields (finishAtEval 2) true 1 (by decide) hm).1
  refine ⟨by decide, finishAtEval_inTick 2 0 true rfl (by decide), f1, ?_⟩
  rw [f1]
  decide

/-- C3, as amended: for a model whose finish request first occurs during the
500th call of `top->eval()` made by `main` (the initial evaluation of line 29
is the first call, so the 500th call is made in the tick entered with
`main_time = 498`), the run stops with final `main_time = 499`, `gotFinish`
true, and exactly 499 calls of `tfp->dump`, keyed `0, ..., 498`. -/
theorem finish_at_eval_500 {σ : Type} (d : Dut σ) (ok : Bool)
    (h : FinishesAtEval d ok 500) :
    runLoop d (preLoop d ok) = stateAfter d ok 499 ∧
      (main d ok).st.main_time = 499 ∧
      (main d ok).st.gotFinish = true ∧
      dumpKeys (main d ok).st.log = List.range 499 ∧
      (dumpKeys (main d ok).st.log).length = 499 ∧
      (ok = true → (main d ok).st.tfp.records.length = 499) := by
  obtain ⟨h1, _, h3⟩ := h
  have hc : ∀ i, i < 499 → (stateAfter d ok i).gotFinish = false := by
    intro i hi
    apply h1
    rw [evalCount_stateAfter]
    omega
  have hs : (stateAfter d ok 499).gotFinish = true := by
    apply h3
    rw [evalCount_stateAfter]
  obtain ⟨hr, hm⟩ := main_of_stop d ok 499 (by decide) hc (Or.inl hs)
  obtain ⟨f1, f2, f3, _, f5⟩ := final_fields d ok 499 (by decide) hm
  refine ⟨hr, f1, ?_, ?_, ?_, ?_⟩
  · rw [f3]
    exact hs
  · rw [f2, dumpKeys_log]
  · rw [f2, dumpKeys_log, List.length_range]
  · intro hok
    rw [f5]
    simp [hok]

/-- Witness of C3 as amended: the counting model finishing during its 500th
evaluation, trace file not opened. -/
theorem finish_at_eval_500_witness :
    FinishesAtEval (finishAtEval 500) false 500 ∧
      (runLoop (finishAtEval 500) (preLoop (finishAtEval 500) false) =
          stateAfter (finishAtEval 500) false 499 ∧
        (main (finishAtEval 500) false).st.main_time = 499 ∧
        (main (finishAtEval 500) false).st.gotFinish = true ∧
        dumpKeys (main (finishAtEval 500) false).st.log = List.range 499 ∧
        (dumpKeys (main (finishAtEval 500) false).st.log).length = 499 ∧
        (false = true → (main (finishAtEval 500) false).st.tfp.records.length = 499)) :=
  ⟨finishAtEval_atEval 500 false (by decide),
    finish_at_eval_500 (finishAtEval 500) false (finishAtEval_atEval 500 false (by decide))⟩

/-- Counterexample to C3 as stated: the counting model requests finish during
the 500th call of `top->eval()`, the trace file is opened, and `main` ends with
`main_time = 499` and 499 records, not 500. -/
theorem finish_at_eval_500_counterexample :
    FinishesAtEval (finishAtEval 500) true 500 ∧
      (main (finishAtEval 500) true).st.main_time ≠ 500 ∧
      (dumpKeys (main (finishAtEval 500) true).st.log).length ≠ 500 ∧
      (main (finishAtEval 500) true).st.tfp.records.length ≠ 500 := by
  have hm := main_finishAtEval 500 true (by decide) (by decide)
  obtain ⟨f1, f2, _, _, f5⟩ := final_fields (finishAtEval 500) true 499 (by decide) hm
  refine ⟨finishAtEval_atEval 500 true (by decide), ?_, ?_, ?_⟩
  · rw [f1]
    decide
  · rw [f2, dumpKeys_log, List.length_range]
    decide
  · rw [f5]
    simp

/-- C4, as amended: `main` never inspects the outcome of `tfp->open` and always
returns 0.  When the open fails the run is not aborted: it performs exactly the
same operations as when the open succeeds (the initial evaluation, then one
evaluation and one call of `tfp->dump` per tick), the sink that was not opened
receives no record, and the exit code is 0 whether the open succeeds or fails. -/
theorem open_outcome_ignored {σ : Type} (d : Dut σ) :
    (main d false).st.log = (main d true).st.log ∧
      (main d false).st.main_time = (main d true).st.main_time ∧
      evalCount (main d false).st.log = (main d false).st.main_time + 1 ∧
      (main d false).st.tfp.records = [] ∧
      (main d false).exitCode = 0 ∧ (main d true).exitCode = 0 := by
  obtain ⟨h1, h2⟩ := main_open_indep d
  obtain ⟨_, _, m3, _, m5⟩ := main_summary d false
  refine ⟨h2, h1, ?_, ?_, rfl, rfl⟩
  · rw [m3, evalCount_log]
  · rw [m5]
    simp

/-- Counterexample to C4 as stated: with the idle model and a failing open,
`main` still makes 50001 evaluations and returns 0. -/
theorem open_failure_counterexample :
    evalCount (main idleDut false).st.log = 50001 ∧
      (main idleDut false).exitCode = 0 ∧
      ¬ (evalCount (main idleDut false).st.log = 0 ∧ (main idleDut false).exitCode ≠ 0) := by
  have hm := main_idleDut false
  obtain ⟨_, f2, _⟩ := final_fields idleDut false 50000 (Nat.le_refl _) hm
  have he : evalCount (main idleDut false).st.log = 50001 := by
    rw [f2, evalCount_log]
  refine ⟨he, rfl, ?_⟩
  rintro ⟨h0, _⟩
  rw [he] at h0
  exact absurd h0 (by decide)

/-- C5: in every run and for every executed tick `t` (the loop iteration entered
with `main_time = t`), the reset input seen by the evaluation and by the trace
dump of that tick is asserted (`rst_n = 0`) if `t ≤ 100` and deasserted
(`rst_n = 1`) if `t > 100`; hence once deasserted at a tick it is deasserted at
every later tick of the run. -/
theorem reset_follows_threshold {σ : Type} (d : Dut σ) (ok : Bool) :
    runLoop d (preLoop d ok) = stateAfter d ok (main d ok).st.main_time ∧
      (∀ t, t < (main d ok).st.main_time →
        (stateAfter d ok t).main_time = t ∧
        (atEval d ok t).rst_n = decide (100 < t) ∧
        (atDump d ok t).rst_n = decide (100 < t) ∧
        Event.dump t (clkAt t) (decide (100 < t)) ∈ (main d ok).st.log) ∧
      (∀ t c r, Event.dump t c r ∈ (main d ok).st.log →
        t < (main d ok).st.main_time ∧ r = decide (100 < t)) ∧
      (∀ t u, t ≤ u → u < (main d ok).st.main_time →
        (atEval d ok t).rst_n = true →
        (atEval d ok u).rst_n = true ∧ (atDump d ok u).rst_n = true) := by
  obtain ⟨m1, m2, m3, _, _⟩ := main_summary d ok
  refine ⟨m2, ?_, ?_, ?_⟩
  · intro t ht
    obtain ⟨_, _, a3, _, _, _, a7, _⟩ := atEval_fields d ok t (by omega)
    refine ⟨stateAfter_main_time d ok t (by omega), a3, a7, ?_⟩
    rw [m3, mem_log_dump]
    exact ⟨ht, rfl, rfl⟩
  · intro t c r hmem
    rw [m3, mem_log_dump] at hmem
    exact ⟨hmem.1, hmem.2.2⟩
  · intro t u htu hu ht
    obtain ⟨_, _, a3, _, _, _, _, _⟩ := atEval_fields d ok t (by omega)
    obtain ⟨_, _, b3, _, _, _, b7, _⟩ := atEval_fields d ok u (by omega)
    rw [a3] at ht
    rw [b3, b7]
    simp only [rstAt, decide_eq_true_eq] at ht ⊢
    omega

/-- C6, as amended: in every run `rst_n` changes value at most once.  The
values written to it are one 0 (line 28) followed by one 1 per executed tick
`t > 100`; so it changes exactly once, from asserted to deasserted in tick 101
(the first tick with `t > 100`), when the run executes more than 101 ticks, and
not at all otherwise; it never changes back. -/
theorem reset_changes_at_most_once {σ : Type} (d : Dut σ) (ok : Bool) :
    rstWrites (main d ok).st.log =
        false :: List.replicate ((main d ok).st.main_time - 101) true ∧
      changes (rstWrites (main d ok).st.log) =
        (if 101 < (main d ok).st.main_time then 1 else 0) ∧
      (∀ t c r, Event.dump t c r ∈ (main d ok).st.log → (r = true ↔ 100 < t)) ∧
      (∀ t, t < (main d ok).st.main_time →
        (stateAfter d ok t).rst_n = decide (101 < t) ∧
        (tickBody d (stateAfter d ok t)).rst_n = decide (100 < t)) := by
  obtain ⟨m1, _, m3, _, _⟩ := main_summary d ok
  refine ⟨?_, ?_, ?_, ?_⟩
  · rw [m3, rstWrites_log]
  · rw [m3, rstWrites_log, changes_false_replicate]
    by_cases h : 101 < (main d ok).st.main_time
    · have : 0 < (main d ok).st.main_time - 101 := by omega
      simp [h, this]
    · have : ¬ 0 < (main d ok).st.main_time - 101 := by omega
      simp [h, this]
  · intro t c r hmem
    rw [m3, mem_log_dump] at hmem
    rw [hmem.2.2]
    simp [rstAt]
  · intro t ht
    obtain ⟨h1, h2, h3, _, _⟩ := stateAfter_fields d ok t (by omega)
    exact ⟨h3, (tickBody_log d (stateAfter d ok t) t h1 h2 h3).2.2⟩

/-- Counterexample to C6 as stated: the model that requests finish during its
twelfth evaluation ends the run after 11 ticks; `rst_n` is written once, with
0, and never changes value. -/
theorem reset_never_released_counterexample :
    (main (finishAtEval 12) true).st.main_time = 11 ∧
      rstWrites (main (finishAtEval 12) true).st.log = [false] ∧
      changes (rstWrites (main (finishAtEval 12) true).st.log) = 0 ∧
      changes (rstWrites (main (finishAtEval 12) true).st.log) ≠ 1 := by
  have hm := main_finishAtEval 12 true (by decide) (by decide)
  obtain ⟨f1, f2, _⟩ := final_fields (finishAtEval 12) true 11 (by decide) hm
  have hw : rstWrites (main (finishAtEval 12) true).st.log = [false] := by
    rw [f2, rstWrites_log]
    rfl
  refine ⟨f1, hw, ?_, ?_⟩
  · rw [hw]
    rfl
  · rw [hw]
    decide

/-- C7: `clk` starts at 0 and is toggled exactly once per tick, before the
evaluation of that tick; for every executed tick `t` the value of `clk` seen by
the evaluation and by the dump of tick `t` is the number of toggles so far,
`t + 1`, modulo 2; and after a run of `n` ticks `clk = n mod 2`. -/
theorem clock_parity {σ : Type} (d : Dut σ) (ok : Bool) :
    (preLoop d ok).clk = false ∧ toggleCount (preLoop d ok).log = 0 ∧
      runLoop d (preLoop d ok) = stateAfter d ok (main d ok).st.main_time ∧
      (∀ t, t < (main d ok).st.main_time →
        toggleCount (stateAfter d ok t).log = t ∧
        toggleCount (atEval d ok t).log = t + 1 ∧
        toggleCount (tickBody d (stateAfter d ok t)).log = t + 1 ∧
        (atEval d ok t).clk = decide ((t + 1) % 2 = 1) ∧
        (atDump d ok t).clk = decide ((t + 1) % 2 = 1)) ∧
      (∀ t c r, Event.dump t c r ∈ (main d ok).st.log → c = decide ((t + 1) % 2 = 1)) ∧
      toggleCount (main d ok).st.log = (main d ok).st.main_time ∧
      (main d ok).st.clk = decide ((main d ok).st.main_time % 2 = 1) := by
  obtain ⟨m1, m2, m3, m4, _⟩ := main_summary d ok
  obtain ⟨_, p2, _, p4, _⟩ := preLoop_fields d ok
  have hp : toggleCount preLoopEvents = 0 := by simp [preLoopEvents, toggleCount]
  refine ⟨p2, by rw [p4, hp], m2, ?_, ?_, ?_, m4⟩
  · intro t ht
    obtain ⟨_, a2, _, a4, _, a6, _, _⟩ := atEval_fields d ok t (by omega)
    have l1 := stateAfter_log d ok t (by omega)
    have l2 := stateAfter_log d ok (t + 1) (by omega)
    simp only [stateAfter] at l2
    refine ⟨?_, a4, ?_, a2, a6⟩
    · rw [l1, toggleCount_append, toggleCount_loopEvents, hp]
      omega
    · rw [l2, toggleCount_append, toggleCount_loopEvents, hp]
      omega
  · intro t c r hmem
    rw [m3, mem_log_dump] at hmem
    exact hmem.2.1
  · rw [m3, toggleCount_log]

/-- C8: every run executes a finite number `n ≤ 50000` of ticks; `main_time`
starts at 0, increases by exactly 1 in each executed tick and ends at `n`; and
the keys passed to `tfp->dump` over the run are exactly `0, 1, ..., n - 1` in
that order, one per executed tick. -/
theorem time_and_dump_keys {σ : Type} (d : Dut σ) (ok : Bool) :
    ∃ n, n ≤ 50000 ∧
      runLoop d (preLoop d ok) = stateAfter d ok n ∧
      (preLoop d ok).main_time = 0 ∧
      (∀ t, t < n →
        (stateAfter d ok t).main_time = t ∧
        (tickBody d (stateAfter d ok t)).main_time = (stateAfter d ok t).main_time + 1 ∧
        dumpKeys (tickBody d (stateAfter d ok t)).log =
          dumpKeys (stateAfter d ok t).log ++ [t]) ∧
      (main d ok).st.main_time = n ∧
      dumpKeys (main d ok).st.log = List.range n ∧
      (ok = true → (main d ok).st.tfp.records = List.range n) := by
  obtain ⟨m1, m2, m3, _, m5⟩ := main_summary d ok
  refine ⟨(main d ok).st.main_time, m1, m2, (preLoop_fields d ok).1, ?_, rfl, ?_, ?_⟩
  · intro t ht
    have h1 := stateAfter_main_time d ok t (by omega)
    have h2 := stateAfter_main_time d ok (t + 1) (by omega)
    have l1 := stateAfter_log d ok t (by omega)
    have l2 := stateAfter_log d ok (t + 1) (by omega)
    simp only [stateAfter] at h2 l2
    refine ⟨h1, by rw [h2, h1], ?_⟩
    rw [l1, l2]
    simp [dumpKeys_append, dumpKeys_loopEvents, List.range_succ]
  · rw [m3, dumpKeys_log]
  · intro hok
    rw [m5]
    simp [hok]

/-- C9, as amended: on every termination path the method calls made by `main`
are, in order: `top->trace` once, `tfp->open` once, the initial evaluation of
line 29, then per executed tick one evaluation followed by the dump of that
tick, then `top->final()` once, then `tfp->close()` once.  Hence no dump occurs
before the open or after the close and no evaluation occurs after `final`. -/
theorem call_sequence_shape {σ : Type} (d : Dut σ) (ok : Bool) :
    calls (main d ok).st.log =
        [Event.traceReg 99, Event.openVcd, Event.eval false false] ++
          loopCalls (main d ok).st.main_time ++ [Event.final, Event.close] ∧
      ticksThenTeardown
        (loopCalls (main d ok).st.main_time ++ [Event.final, Event.close]) = true := by
  obtain ⟨_, _, m3, _, _⟩ := main_summary d ok
  refine ⟨?_, ?_⟩
  · conv_lhs => rw [m3]
    exact calls_log _
  · rw [ticksThenTeardown_loopCalls]
    rfl

/-- Counterexample to C9 as stated: with the model that requests finish during
the initial evaluation no tick is executed, yet the calls are trace
registration, open, one evaluation, `final`, `close`; this is not of the form
registration, open, (evaluation, dump) per tick, `final`, `close`. -/
theorem call_sequence_counterexample :
    calls (main (finishAtEval 1) true).st.log =
        [Event.traceReg 99, Event.openVcd, Event.eval false false, Event.final,
          Event.close] ∧
      tickOnlyShape (calls (main (finishAtEval 1) true).st.log) = false := by
  have hm := main_finishAtEval 1 true (by decide) (by decide)
  obtain ⟨_, f2, _⟩ := final_fields (finishAtEval 1) true 0 (by decide) hm
  have hc : calls (main (finishAtEval 1) true).st.log =
      [Event.traceReg 99, Event.openVcd, Event.eval false false, Event.final,
        Event.close] := by
    rw [f2, calls_log]
    rfl
  refine ⟨hc, ?_⟩
  rw [hc]
  rfl

/-- C10, as amended: the model is evaluated once before the loop (line 29) and
exactly once per tick, so the number of `top->eval()` calls made by `main` is
the number of executed ticks (which equals the number of dumps) plus one; every
evaluation made in the loop happens inside a tick, after the clock toggle and
the reset update of that tick and before its dump. -/
theorem eval_count {σ : Type} (d : Dut σ) (ok : Bool) :
    runLoop d (preLoop d ok) = stateAfter d ok (main d ok).st.main_time ∧
      evalCount (main d ok).st.log = (main d ok).st.main_time + 1 ∧
      (dumpKeys (main d ok).st.log).length = (main d ok).st.main_time ∧
      evalCount (preLoop d ok).log = 1 ∧
      (∀ t, evalCount (tickBody d (stateAfter d ok t)).log =
        evalCount (stateAfter d ok t).log + 1) ∧
      (main d ok).st.log =
        preLoopEvents ++ loopEvents (main d ok).st.main_time ++
          [Event.final, Event.close] := by
  obtain ⟨_, m2, m3, _, _⟩ := main_summary d ok
  refine ⟨m2, ?_, ?_, ?_, fun t => tickBody_evalCount d _, m3⟩
  · conv_lhs => rw [m3]
    exact evalCount_log _
  · conv_lhs => rw [m3]
    rw [dumpKeys_log, List.length_range]
  · have := evalCount_stateAfter d ok 0
    simpa [stateAfter] using this

/-- Counterexample to C10 as stated: the model that requests finish during its
third evaluation is evaluated three times by `main` while only two ticks are
executed and two records dumped. -/
theorem eval_count_counterexample :
    runLoop (finishAtEval 3) (preLoop (finishAtEval 3) true) =
        stateAfter (finishAtEval 3) true 2 ∧
      (main (finishAtEval 3) true).st.main_time = 2 ∧
      dumpKeys (main (finishAtEval 3) true).st.log = [0, 1] ∧
      evalCount (main (finishAtEval 3) true).st.log = 3 ∧
      evalCount (main (finishAtEval 3) true).st.log ≠
        (main (finishAtEval 3) true).st.main_time := by
  have hm := main_finishAtEval 3 true (by decide) (by decide)
  obtain ⟨f1, f2, _⟩ := final_fields (finishAtEval 3) true 2 (by decide) hm
  have hr : runLoop (finishAtEval 3) (preLoop (finishAtEval 3) true) =
      stateAfter (finishAtEval 3) true 2 := by
    refine (main_of_stop (finishAtEval 3) true 2 (by decide) ?_ (Or.inl ?_)).1
    · intro i hi
      rw [(finishAtEval_state 3 true i).2]
      simp only [decide_eq_false_iff_not]
      omega
    · rw [(finishAtEval_state 3 true 2).2]
      decide
  have he : evalCount (main (finishAtEval 3) true).st.log = 3 := by
    rw [f2, evalCount_log]
  refine ⟨hr, f1, ?_, he, ?_⟩
  · rw [f2, dumpKeys_log]
    rfl
  · rw [he, f1]
    decide

end TbTlTop
